import Mathlib

/-!
Verification of the parsing core of cli-step-by-step-guide-visualiser.

The development shallowly embeds the two core functions of the repository:

* `parseShellCodeBlock` (the Shell Transcript Tokenizer), from
  lib/parse-shell-code-block.mjs, and
* `tokenToNode` (the Node Transformer), from lib/parse-raw-markdown.mjs,

together with the small module-level highlight.js plumbing
(`afterHighlightHandler`, `highlightJsChildToNode`, `hljs.addPlugin`).
JavaScript strings are modelled by Lean `String` (a wrapper around
`List Char`), and the JavaScript string builtins used by the source are
given explicit structural definitions (`jsTrimEnd`, `jsStartsWith`, ...)
so that every function is executable by the kernel.
-/

/-! ## JavaScript string primitives used by the source -/

/-- Model of JavaScript `String.prototype.trimEnd`. -/
def jsTrimEnd (s : String) : String :=
  ⟨(s.data.reverse.dropWhile Char.isWhitespace).reverse⟩

/-- Model of JavaScript `String.prototype.trimStart`. -/
def jsTrimStart (s : String) : String :=
  ⟨s.data.dropWhile Char.isWhitespace⟩

/-- Model of JavaScript `String.prototype.trim`. -/
def jsTrim (s : String) : String :=
  jsTrimStart (jsTrimEnd s)

/-- Model of JavaScript `String.prototype.startsWith`. -/
def jsStartsWith (s pre : String) : Bool :=
  pre.data.isPrefixOf s.data

/-- Model of JavaScript `String.prototype.endsWith`. -/
def jsEndsWith (s suf : String) : Bool :=
  suf.data.reverse.isPrefixOf s.data.reverse

/-- Model of JavaScript `s.slice(n)` (drop the first `n` characters). -/
def jsSliceFrom (s : String) (n : Nat) : String :=
  ⟨s.data.drop n⟩

/-- Model of JavaScript `s.slice(a, b)` for `0 ≤ a ≤ b`. -/
def jsSlice (s : String) (a b : Nat) : String :=
  ⟨(s.data.take b).drop a⟩

/-- Model of JavaScript `s.indexOf('\n')`: position of the first newline. -/
def jsIndexOfNewline (s : String) : Option Nat :=
  s.data.findIdx? (· = '\n')

/-- Model of JavaScript `String.prototype.toLowerCase`. -/
def jsToLower (s : String) : String :=
  ⟨s.data.map Char.toLower⟩

/-- Character-list worker for `jsSplitCrlf`: split on the separators of the
regular expression `/\r?\n/`, i.e. on `"\r\n"` or on a bare `'\n'`. -/
def splitCrlfChars : List Char → List (List Char)
  | [] => [[]]
  | '\r' :: '\n' :: rest => [] :: splitCrlfChars rest
  | '\n' :: rest => [] :: splitCrlfChars rest
  | c :: rest =>
    match splitCrlfChars rest with
    | [] => [[c]]
    | l :: ls => (c :: l) :: ls

/-- Model of JavaScript `codeBlock.split(/\r?\n/)`. -/
def jsSplitCrlf (s : String) : List String :=
  (splitCrlfChars s.data).map (fun cs => ⟨cs⟩)

/-- Model of JavaScript `lines.join('\n')`. -/
def jsJoinNewline : List String → String
  | [] => ""
  | [l] => l
  | l :: rest => l ++ "\n" ++ jsJoinNewline rest

/-! ## The Shell Transcript Tokenizer (`parseShellCodeBlock`) -/

/-- The `kind` field of a `ShellCodeBlockToken`; the source only ever stores
the strings `'description'`, `'command'` and `'output'` in it. -/
inductive TokenKind where
  | description
  | command
  | output
deriving DecidableEq, Repr

/-- The string the source stores in the `kind` field, as interpolated into
error messages. -/
def kindStr : TokenKind → String
  | .description => "description"
  | .command => "command"
  | .output => "output"

/-- A `ShellCodeBlockToken`: `{ kind, lines }`. -/
structure ShellToken where
  kind : TokenKind
  lines : List String
deriving DecidableEq, Repr

/-- The mutable loop state of `parseShellCodeBlock`: in the source, `result`
is an array whose last element is aliased by `current`; here `done` holds the
elements of `result` before `current`, so `result = done ++ [current]`. -/
structure ParseState where
  done : List ShellToken
  current : ShellToken
deriving DecidableEq, Repr

/-- The error-message prefix `pfx` of `parseShellCodeBlock`. -/
def shellPfx : String := "parseShellCodeBlock():"

/-- One iteration of the `for (const line of lines)` loop of
`parseShellCodeBlock` (lib/parse-shell-code-block.mjs), acting on a line that
has already had its trailing whitespace removed. -/
def processLine (st : ParseState) (line : String) : Except String ParseState :=
  if jsStartsWith line "# " ∨ line = "#" then
    let trimmedLine := jsTrim (jsSliceFrom line 2)
    if st.current.kind = .command then
      .ok { done := st.done ++ [st.current],
            current := { kind := .output, lines := [trimmedLine] } }
    else
      .ok { st with
            current := { st.current with lines := st.current.lines ++ [trimmedLine] } }
  else if jsStartsWith (jsTrimStart line) "#" then
    .error (shellPfx ++ " All description and output lines with text must start \"# \"")
  else if line = "" then
    if st.current.kind = .output then
      .ok { done := st.done ++ [st.current],
            current := { kind := .description, lines := [] } }
    else
      .error (shellPfx ++ " Unexpected empty line " ++
        (if st.current.lines.length = 0 then "before" else "after") ++
        " " ++ kindStr st.current.kind)
  else if st.current.kind = .command then
    .ok { st with
          current := { st.current with lines := st.current.lines ++ [line] } }
  else if st.current.kind = .description then
    .ok { done := st.done ++ [st.current],
          current := { kind := .command, lines := [line] } }
  else
    .error (shellPfx ++ " Unexpected uncommented line in " ++ kindStr st.current.kind)

/-- The line preprocessing of `parseShellCodeBlock`: trim trailing whitespace
of every raw line, then remove the empty lines at the start and at the end. -/
def stripEmptyEnds (rawLines : List String) : List String :=
  let lines := (rawLines.map jsTrimEnd).dropWhile (· = "")
  (lines.reverse.dropWhile (· = "")).reverse

/-- The initial `result`/`current` state of `parseShellCodeBlock`. -/
def initState : ParseState :=
  { done := [], current := { kind := .description, lines := [] } }

/-- Shallow embedding of `parseShellCodeBlock`
(lib/parse-shell-code-block.mjs). A thrown `Error(msg)` is modelled as
`.error msg`. -/
def parseShellCodeBlock (codeBlock : String) : Except String (List ShellToken) :=
  let rawLines := jsSplitCrlf codeBlock
  let lines := stripEmptyEnds rawLines
  match lines with
  | [] => .ok []
  | first :: _ =>
    if first ≠ "#" ∧ ¬ jsStartsWith first "# " then
      .error (shellPfx ++ " First non-empty line must be commented \"# ...\"")
    else
      match lines.foldlM processLine initState with
      | .error e => .error e
      | .ok st =>
        if st.current.kind ≠ .output then
          .error (shellPfx ++ " Last non-empty line must be output not " ++
            kindStr st.current.kind)
        else
          .ok (st.done ++ [st.current])

instance : DecidableEq (Except String (List ShellToken)) := fun a b =>
  match a, b with
  | .ok x, .ok y => decidable_of_iff (x = y) (by simp)
  | .error x, .error y => decidable_of_iff (x = y) (by simp)
  | .ok _, .error _ => isFalse (by simp)
  | .error _, .ok _ => isFalse (by simp)

instance : DecidableEq (Except String ParseState) := fun a b =>
  match a, b with
  | .ok x, .ok y => decidable_of_iff (x = y) (by simp)
  | .error x, .error y => decidable_of_iff (x = y) (by simp)
  | .ok _, .error _ => isFalse (by simp)
  | .error _, .ok _ => isFalse (by simp)

/-! ## Generic invariant preservation through `List.foldlM` over `Except` -/

/-- A predicate preserved by every successful step of a fold is preserved by
a successful `List.foldlM`. -/
theorem foldlM_except_inv {σ α ε : Type} {P : σ → Prop} {f : σ → α → Except ε σ}
    (hf : ∀ s a s₂, P s → f s a = .ok s₂ → P s₂) :
    ∀ (l : List α) (s s₂ : σ), P s → List.foldlM f s l = .ok s₂ → P s₂ := by
  intro l
  induction l with
  | nil =>
    intro s s₂ hP h
    obtain rfl := Except.ok.inj h
    exact hP
  | cons a as ih =>
    intro s s₂ hP h
    cases hfa : f s a with
    | error e =>
      rw [show List.foldlM f s (a :: as) = f s a >>= fun s₁ => List.foldlM f s₁ as from rfl,
        hfa] at h
      exact Except.noConfusion h
    | ok s₁ =>
      rw [show List.foldlM f s (a :: as) = f s a >>= fun s₁ => List.foldlM f s₁ as from rfl,
        hfa] at h
      exact ih s₁ s₂ (hf s a s₁ hP hfa) h

/-- Case split on a successful run of `parseShellCodeBlock`: either the
stripped line list was empty and the result is `[]`, or the line walk
finished in an `output` state and the result is `done ++ [current]`. -/
theorem parseShellCodeBlock_ok_cases (cb : String) (res : List ShellToken)
    (h : parseShellCodeBlock cb = .ok res) :
    res = [] ∨ ∃ st : ParseState,
      (stripEmptyEnds (jsSplitCrlf cb)).foldlM processLine initState = .ok st ∧
      st.current.kind = .output ∧ res = st.done ++ [st.current] := by
  unfold parseShellCodeBlock at h
  dsimp only at h
  split at h
  · exact Or.inl (Except.ok.inj h).symm
  · rename_i first rest heq
    split at h
    · exact Except.noConfusion h
    · rw [heq] at h
      split at h
      · exact Except.noConfusion h
      · rename_i st hfold
        split at h
        · exact Except.noConfusion h
        · rename_i hkind
          refine Or.inr ⟨st, ?_, ?_, (Except.ok.inj h).symm⟩
          · rw [heq]; exact hfold
          · exact not_not.mp hkind

/-! ## Claim C1: the token kinds form whole description/command/output triples -/

/-- The kind sequence of `n` description→command→output triples. -/
def tripleKinds : Nat → List TokenKind
  | 0 => []
  | n + 1 => [.description, .command, .output] ++ tripleKinds n

theorem tripleKinds_append (n : Nat) :
    tripleKinds n ++ [TokenKind.description, .command, .output] = tripleKinds (n + 1) := by
  induction n with
  | zero => rfl
  | succ n ih =>
    show ([TokenKind.description, .command, .output] ++ tripleKinds n) ++ _ = _
    rw [List.append_assoc, ih]
    rfl

/-- Loop invariant of the line walk: the kinds of the closed tokens followed
by the current token always look like whole triples followed by the start of
a fresh triple. -/
def altInv (st : ParseState) : Prop :=
  ∃ n, (st.done.map ShellToken.kind = tripleKinds n ∧
          st.current.kind = .description) ∨
       (st.done.map ShellToken.kind = tripleKinds n ++ [.description] ∧
          st.current.kind = .command) ∨
       (st.done.map ShellToken.kind = tripleKinds n ++ [.description, .command] ∧
          st.current.kind = .output)

theorem processLine_altInv : ∀ (s : ParseState) (line : String) (s₂ : ParseState),
    altInv s → processLine s line = .ok s₂ → altInv s₂ := by
  intro s line s₂ hInv h
  obtain ⟨n, hd⟩ := hInv
  unfold processLine at h
  split at h
  · split at h
    · rename_i hkc
      obtain rfl := Except.ok.inj h
      rcases hd with ⟨hmap, hk⟩ | ⟨hmap, hk⟩ | ⟨hmap, hk⟩
      · rw [hk] at hkc; exact absurd hkc (by decide)
      · exact ⟨n, Or.inr (Or.inr ⟨by simp [hmap, hk], rfl⟩)⟩
      · rw [hk] at hkc; exact absurd hkc (by decide)
    · obtain rfl := Except.ok.inj h
      exact ⟨n, hd⟩
  · split at h
    · exact Except.noConfusion h
    · split at h
      · split at h
        · rename_i hko
          obtain rfl := Except.ok.inj h
          rcases hd with ⟨hmap, hk⟩ | ⟨hmap, hk⟩ | ⟨hmap, hk⟩
          · rw [hk] at hko; exact absurd hko (by decide)
          · rw [hk] at hko; exact absurd hko (by decide)
          · refine ⟨n + 1, Or.inl ⟨?_, rfl⟩⟩
            rw [← tripleKinds_append n]
            simp [hmap, hk]
        · exact Except.noConfusion h
      · split at h
        · obtain rfl := Except.ok.inj h
          exact ⟨n, hd⟩
        · split at h
          · rename_i hkd
            obtain rfl := Except.ok.inj h
            rcases hd with ⟨hmap, hk⟩ | ⟨hmap, hk⟩ | ⟨hmap, hk⟩
            · exact ⟨n, Or.inr (Or.inl ⟨by simp [hmap, hk], rfl⟩)⟩
            · rw [hk] at hkd; exact absurd hkd (by decide)
            · rw [hk] at hkd; exact absurd hkd (by decide)
          · exact Except.noConfusion h

/-- C1: whenever the Shell Transcript Tokenizer succeeds with a non-empty
result, the kind sequence of the result is a whole, positive number of
description→command→output triples — so it begins with a description token,
ends with an output token, and the kinds strictly alternate. -/
theorem c1_token_kinds_whole_triples (cb : String) (res : List ShellToken)
    (h : parseShellCodeBlock cb = .ok res) (hne : res ≠ []) :
    ∃ n, 1 ≤ n ∧ res.map ShellToken.kind = tripleKinds n := by
  rcases parseShellCodeBlock_ok_cases cb res h with rfl | ⟨st, hfold, hk, rfl⟩
  · exact absurd rfl hne
  · have hInv : altInv st :=
      foldlM_except_inv processLine_altInv _ initState st ⟨0, Or.inl ⟨rfl, rfl⟩⟩ hfold
    rcases hInv with ⟨n, ⟨hmap, hko⟩ | ⟨hmap, hko⟩ | ⟨hmap, hko⟩⟩
    · rw [hko] at hk; exact absurd hk (by decide)
    · rw [hko] at hk; exact absurd hk (by decide)
    · refine ⟨n + 1, Nat.succ_le_succ (Nat.zero_le n), ?_⟩
      rw [← tripleKinds_append n]
      simp [hmap, hko]

/-- Witness for C1: the minimal valid block yields one whole triple. -/
theorem c1_token_kinds_whole_triples_witness :
    ∃ n, 1 ≤ n ∧
      ([⟨TokenKind.description, [""]⟩, ⟨.command, ["c"]⟩,
        ⟨.output, [""]⟩] : List ShellToken).map ShellToken.kind = tripleKinds n :=
  c1_token_kinds_whole_triples "#\nc\n#" _ (by decide) (by decide)

/-! ## Claim C9: command and output tokens always carry at least one line -/

/-- Loop invariant: every closed non-description token, and the current token
when it is not a description, has a non-empty `lines` array. -/
def linesNonEmptyInv (st : ParseState) : Prop :=
  (∀ t ∈ st.done, t.kind ≠ .description → t.lines ≠ []) ∧
  (st.current.kind ≠ .description → st.current.lines ≠ [])

theorem processLine_linesNonEmptyInv :
    ∀ (s : ParseState) (line : String) (s₂ : ParseState),
    linesNonEmptyInv s → processLine s line = .ok s₂ → linesNonEmptyInv s₂ := by
  intro s line s₂ hInv h
  obtain ⟨hdone, hcur⟩ := hInv
  unfold processLine at h
  split at h
  · split at h
    · rename_i hkc
      obtain rfl := Except.ok.inj h
      refine ⟨fun t ht hkind => ?_, fun _ => by simp⟩
      rcases List.mem_append.mp ht with h1 | h1
      · exact hdone t h1 hkind
      · rw [List.mem_singleton.mp h1]
        exact hcur (by rw [hkc]; decide)
    · obtain rfl := Except.ok.inj h
      exact ⟨hdone, fun _ => by simp⟩
  · split at h
    · exact Except.noConfusion h
    · split at h
      · split at h
        · rename_i hko
          obtain rfl := Except.ok.inj h
          refine ⟨fun t ht hkind => ?_, fun hdk => absurd rfl hdk⟩
          rcases List.mem_append.mp ht with h1 | h1
          · exact hdone t h1 hkind
          · rw [List.mem_singleton.mp h1]
            exact hcur (by rw [hko]; decide)
        · exact Except.noConfusion h
      · split at h
        · obtain rfl := Except.ok.inj h
          exact ⟨hdone, fun _ => by simp⟩
        · split at h
          · rename_i hkd
            obtain rfl := Except.ok.inj h
            refine ⟨fun t ht hkind => ?_, fun _ => by simp⟩
            rcases List.mem_append.mp ht with h1 | h1
            · exact hdone t h1 hkind
            · rw [List.mem_singleton.mp h1] at hkind
              exact absurd hkd hkind
          · exact Except.noConfusion h

/-- C9: whenever the Shell Transcript Tokenizer succeeds, every token of the
result other than a description — every command and every output token — has
a non-empty `lines` array; only description tokens can be empty. -/
theorem c9_command_output_lines_nonempty (cb : String) (res : List ShellToken)
    (h : parseShellCodeBlock cb = .ok res) :
    ∀ t ∈ res, t.kind ≠ .description → t.lines ≠ [] := by
  rcases parseShellCodeBlock_ok_cases cb res h with rfl | ⟨st, hfold, hk, rfl⟩
  · intro t ht
    exact absurd ht (List.not_mem_nil t)
  · have hInv : linesNonEmptyInv st :=
      foldlM_except_inv processLine_linesNonEmptyInv _ initState st
        ⟨by intro t ht; exact absurd ht (List.not_mem_nil t), fun hdk => absurd rfl hdk⟩ hfold
    intro t ht hkind
    rcases List.mem_append.mp ht with h1 | h1
    · exact hInv.1 t h1 hkind
    · rw [List.mem_singleton.mp h1] at hkind ⊢
      exact hInv.2 hkind

/-- Witness for C9: in the parse of the minimal valid block, the command
token `⟨command, ["c"]⟩` indeed has a non-empty `lines` array. -/
theorem c9_command_output_lines_nonempty_witness :
    (⟨TokenKind.command, ["c"]⟩ : ShellToken).lines ≠ [] :=
  c9_command_output_lines_nonempty "#\nc\n#"
    [⟨.description, [""]⟩, ⟨.command, ["c"]⟩, ⟨.output, [""]⟩]
    (by decide) ⟨.command, ["c"]⟩ (by decide) (by decide)

/-! ## Claim C4: blank-line handling in the line walk -/

/-- C4: in the line walk of the Shell Transcript Tokenizer, a blank line seen
while the current token is a `description` or a `command` always raises the
unexpected-empty-line error, whose message says `before`/`after` according to
whether the current token has no lines yet, and names the current kind; a
blank line while the current token is an `output` never raises and instead
closes the output and starts a fresh empty `description` token. -/
theorem c4_blank_line_step (done : List ShellToken) (cur : ShellToken) :
    (cur.kind = .description ∨ cur.kind = .command →
      processLine ⟨done, cur⟩ "" = .error (shellPfx ++ " Unexpected empty line " ++
        (if cur.lines.length = 0 then "before" else "after") ++ " " ++ kindStr cur.kind)) ∧
    (cur.kind = .output →
      processLine ⟨done, cur⟩ "" = .ok ⟨done ++ [cur], ⟨.description, []⟩⟩) := by
  obtain ⟨k, lines⟩ := cur
  constructor
  · rintro (rfl | rfl) <;> cases lines <;> rfl
  · rintro rfl
    rfl

/-- Witness for C4 at a concrete state: a blank line right after a
`description` token that already holds a line raises the "after" variant. -/
theorem c4_blank_line_step_witness :
    processLine ⟨[], ⟨.description, ["List files"]⟩⟩ "" =
      .error "parseShellCodeBlock(): Unexpected empty line after description" :=
  (c4_blank_line_step [] ⟨.description, ["List files"]⟩).1 (Or.inl rfl)

/-! ## Claim C3: uncommented-line handling in the line walk -/

/-- Classification of an "uncommented, non-blank" line exactly as worded in
the claim: after trailing-whitespace trimming the line is not blank, is not
exactly `#`, does not start with a well-formed `# ` comment marker, and does
not begin with `#` unfollowed by a space. -/
def specUncommentedLine (l : String) : Bool :=
  decide (l ≠ "") && decide (l ≠ "#") && !(jsStartsWith l "# ") &&
  !(jsStartsWith l "#" && !(jsStartsWith l "# "))

/-- Counterexample for C3 as stated: the line `" #x"` satisfies the claim's
classification of an uncommented, non-blank line (it does not begin with
`#`), yet in a `description` state the tokenizer does not start a new
`command` token with it — it raises the ambiguous-comment error, because the
source tests `line.trimStart().startsWith('#')`. -/
theorem c3_uncommented_line_counterexample :
    specUncommentedLine " #x" = true ∧
    processLine ⟨[], ⟨.description, []⟩⟩ " #x" =
      .error "parseShellCodeBlock(): All description and output lines with text must start \"# \"" :=
  ⟨rfl, rfl⟩

/-- C3 (amended): a non-blank line that is not `#`, does not start with
`# `, and whose leading-whitespace-stripped form does not begin with `#`,
starts a new `command` token in a `description` state, is appended verbatim
(leading whitespace preserved) in a `command` state, and in an `output` state
raises the unexpected-uncommented-line error naming the current kind. -/
theorem c3_uncommented_line_step (done : List ShellToken) (cur : ShellToken) (line : String)
    (hne : line ≠ "") (hnc : ¬ jsStartsWith line "# ") (hnh : line ≠ "#")
    (hamb : ¬ jsStartsWith (jsTrimStart line) "#") :
    (cur.kind = .description →
      processLine ⟨done, cur⟩ line = .ok ⟨done ++ [cur], ⟨.command, [line]⟩⟩) ∧
    (cur.kind = .command →
      processLine ⟨done, cur⟩ line = .ok ⟨done, ⟨.command, cur.lines ++ [line]⟩⟩) ∧
    (cur.kind = .output →
      processLine ⟨done, cur⟩ line =
        .error (shellPfx ++ " Unexpected uncommented line in output")) := by
  obtain ⟨k, lines⟩ := cur
  unfold processLine
  rw [if_neg (by rintro (h | h); exact hnc h; exact hnh h), if_neg hamb, if_neg hne]
  refine ⟨?_, ?_, ?_⟩ <;> rintro rfl
  · rw [if_neg (by simp), if_pos rfl]
  · rw [if_pos rfl]
  · rw [if_neg (by simp), if_neg (by simp)]
    rfl

/-- Witness for C3 (amended) at a concrete state: the line `ls` after a
description starts a new command token. -/
theorem c3_uncommented_line_step_witness :
    processLine ⟨[], ⟨.description, ["List files"]⟩⟩ "ls" =
      .ok ⟨[⟨.description, ["List files"]⟩], ⟨.command, ["ls"]⟩⟩ :=
  (c3_uncommented_line_step [] ⟨.description, ["List files"]⟩ "ls"
    (by decide) (by decide) (by decide) (by decide)).1 rfl

/-! ## Claim C5: the minimal valid block -/

/-- C5: the tokenizer accepts the minimal block `"#\nc\n#"` — a first line
that is exactly `#` counts as a well-formed leading comment — and returns
exactly one description/command/output triple. -/
theorem c5_minimal_block :
    parseShellCodeBlock "#\nc\n#" =
      .ok [⟨.description, [""]⟩, ⟨.command, ["c"]⟩, ⟨.output, [""]⟩] := by
  decide

/-! ## Claim C10: a later triple needs no description comment line -/

/-- C10: on the input `"#\nc\n#\n\nc2\n# o2"` a command line directly follows
the single blank line that closes the first output; the tokenizer succeeds
and the result contains a description token whose `lines` array is empty. -/
theorem c10_empty_description_block :
    parseShellCodeBlock "#\nc\n#\n\nc2\n# o2" =
      .ok [⟨.description, [""]⟩, ⟨.command, ["c"]⟩, ⟨.output, [""]⟩,
           ⟨.description, []⟩, ⟨.command, ["c2"]⟩, ⟨.output, ["o2"]⟩] ∧
    (⟨.description, []⟩ : ShellToken) ∈
      [⟨TokenKind.description, [""]⟩, ⟨.command, ["c"]⟩, ⟨.output, [""]⟩,
       ⟨.description, ([] : List String)⟩, ⟨.command, ["c2"]⟩, ⟨.output, ["o2"]⟩] := by
  constructor
  · decide
  · decide

/-! ## The highlight.js plumbing of lib/parse-raw-markdown.mjs -/

/-- A child of `result._emitter.rootNode` as consumed by
`highlightJsChildToNode`: either plain text or `{ children, scope }`. -/
inductive HljsChild where
  | str (s : String)
  | node (scope : String) (children : List HljsChild)

/-- A highlight-span node `{ kind, subnodes }` as produced by
`highlightJsChildToNode`. -/
inductive HNode where
  | str (s : String)
  | span (kind : String) (subnodes : List HNode)

mutual

/-- Shallow embedding of `highlightJsChildToNode` (parse-raw-markdown.mjs):
a plain string is returned directly, an object becomes
`{ kind: scope, subnodes: children.map(highlightJsChildToNode) }`. -/
def highlightJsChildToNode : HljsChild → HNode
  | .str s => .str s
  | .node scope children => .span scope (highlightJsChildrenToNodes children)

/-- The `children.map(highlightJsChildToNode)` worker. -/
def highlightJsChildrenToNodes : List HljsChild → List HNode
  | [] => []
  | c :: rest => highlightJsChildToNode c :: highlightJsChildrenToNodes rest

end

/-- The `value` field of a highlight.js result: the rendered HTML string,
unless the `after:highlight` plugin has replaced it by a node array. -/
inductive HighlightValue where
  | html (s : String)
  | nodes (ns : List HNode)

/-- A highlight.js result as seen by `afterHighlightHandler`:
`result._emitter.rootNode.children` (`none` models a non-array value) and
`result.value`. -/
structure HighlightResult where
  emitterChildren : Option (List HljsChild)
  value : HighlightValue

/-- Shallow embedding of `afterHighlightHandler` (parse-raw-markdown.mjs):
throws when `_emitter.rootNode.children` is not an array, and otherwise
replaces `result.value` with the mapped node array. -/
def afterHighlightHandler (result : HighlightResult) : Except String HighlightResult :=
  match result.emitterChildren with
  | none => .error
      "afterHighlightHandler(): _emitter.rootNode.children is type \"undefined\" not an array"
  | some children =>
      .ok { result with value := .nodes (children.map highlightJsChildToNode) }

/-- The process-wide state of the shared highlight.js instance: whether the
module-level `hljs.addPlugin({'after:highlight': afterHighlightHandler})`
registration has happened, plus the (external, deterministic) behaviour of
the highlighter itself: `emit` is the span tree that `_emitter.rootNode`
exposes for a given text and language, `rawValue` the rendered HTML string. -/
structure HljsEnv where
  registered : Bool
  emit : String → String → Option (List HljsChild)
  rawValue : String → String → String

/-- Modelled from the spec: the external Highlight Adapter call
`hljs.highlight(text, { language })`. The collaborator builds a result whose
`_emitter.rootNode.children` holds the span tree and whose `value` is the
rendered HTML string; any plugin registered for `after:highlight` then runs
on the result before `value` is read. Only the plugin registration itself
(`hljs.addPlugin` at module level) is code of this repository. -/
def hljsHighlight (env : HljsEnv) (text language : String) :
    Except String HighlightValue :=
  let result : HighlightResult :=
    { emitterChildren := env.emit text language
      value := .html (env.rawValue text language) }
  if env.registered then
    match afterHighlightHandler result with
    | .error e => .error e
    | .ok r => .ok r.value
  else
    .ok result.value

/-- Shallow embedding of the module-level statement
`hljs.addPlugin({'after:highlight': afterHighlightHandler})`: it mutates the
shared highlight.js instance, registering the process-wide callback. -/
def moduleInit (env : HljsEnv) : HljsEnv :=
  { env with registered := true }

/-! ## The Node Transformer (`tokenToNode`, lib/parse-raw-markdown.mjs) -/

/-- A table-column alignment value of a `marked` table token. -/
inductive JsAlign where
  | left
  | center
  | right
deriving DecidableEq, Repr

/-- One entry of a shell `code` node's `subnodes`: a pass-through
description/output `ShellCodeBlockToken`, or the `{ kind: 'command',
subnodes: value }` object built for command tokens. -/
inductive ShellItem where
  | tok (t : ShellToken)
  | command (subnodes : HighlightValue)

/-- What a `code` node stores in `subnodes`: the highlight result `value`
directly (non-shell languages), or the mapped shell token array. -/
inductive CodeValue where
  | value (v : HighlightValue)
  | shell (items : List ShellItem)

/-- A `marked` token as consumed by `tokenToNode`. The `other` constructor
carries any unrecognised token `type`, which reaches the `default` branch. -/
inductive MToken where
  | text (text : String)
  | br
  | hr
  | code (lang : Option String) (text : String)
  | codespan (text : String)
  | heading (depth : Nat) (text : String)
  | html (block : Bool) (pre : Bool) (text : String)
  | image (href : String) (title : Option String) (tokens : List MToken)
  | link (href : String) (title : Option String) (tokens : List MToken)
  | space
  | list (ordered : Bool) (items : List MToken)
  | blockquote (tokens : List MToken)
  | table (align : List (Option JsAlign)) (header : List (List MToken))
      (rows : List (List (List MToken)))
  | del (tokens : List MToken)
  | em (tokens : List MToken)
  | list_item (tokens : List MToken)
  | paragraph (tokens : List MToken)
  | strong (tokens : List MToken)
  | other (kind : String)

/-- A `MarkdownNode`: a bare string, or an object with a `kind` tag. The
field layout of each constructor mirrors the object literal the source
builds for that kind; for `html`, `pre = none` models an absent `pre` key. -/
inductive MNode where
  | str (s : String)
  | br
  | hr
  | code (language : String) (subnodes : CodeValue)
  | codespan (subnodes : List MNode)
  | heading (depth : Nat) (subnodes : List MNode)
  | comment (subnodes : List MNode)
  | html (block : Bool) (pre : Option Bool) (subnodes : List MNode)
  | image (href : String) (title : Option String) (subnodes : List MNode)
  | link (href : String) (title : Option String) (subnodes : List MNode)
  | list (ordered : Bool) (subnodes : List MNode)
  | blockquote (subnodes : List MNode)
  | alert (severity : String) (subnodes : List MNode)
  | table (align : List (Option JsAlign)) (subnodes : List MNode)
  | table_header (subnodes : List MNode)
  | table_row (subnodes : List MNode)
  | table_cell (subnodes : List MNode)
  | del (subnodes : List MNode)
  | em (subnodes : List MNode)
  | list_item (subnodes : List MNode)
  | paragraph (subnodes : List MNode)
  | strong (subnodes : List MNode)

/-- JavaScript truthiness of a node, as used by `.filter(Boolean)`: `null`
is filtered before this is consulted; an empty string is falsy, every other
node truthy. -/
def nodeTruthy : MNode → Bool
  | .str s => decide (s ≠ "")
  | _ => true

/-- JavaScript truthiness spread `...(title && { title })`: the `title` key
is present only when `title` is a non-empty string. -/
def jsTruthyTitle : Option String → Option String
  | none => none
  | some t => if t = "" then none else some t

/-- Model of JavaScript `text.slice(4, -3)`. -/
def jsSliceInner (s : String) : String :=
  ⟨(s.data.take (s.data.length - 3)).drop 4⟩

/-- The conditional `remainingSubSubnodes.shift()` of the blockquote branch:
the first remaining sub-subnode is dropped when it is not an object (a bare
string, or missing) or when it is a `br` node. -/
def shiftRemaining : List MNode → List MNode
  | [] => []
  | MNode.str _ :: rest => rest
  | MNode.br :: rest => rest
  | rem => rem

/-- The `rawAlertType` computation of the blockquote branch:
`firstSubSubnode.slice(2, newlinePos === -1 ? undefined : newlinePos)`. -/
def rawAlertTypeOf (s : String) : String :=
  match jsIndexOfNewline s with
  | none => jsSliceFrom s 2
  | some p => jsSlice s 2 p

/-- The text placed before the remaining sub-subnodes when rebuilding an
alert's first paragraph: `newlinePos === -1 ? [] :
[firstSubSubnode.slice(newlinePos + 1)]`. -/
def alertLeadText (s : String) : List MNode :=
  match jsIndexOfNewline s with
  | none => []
  | some p => [MNode.str (jsSliceFrom s (p + 1))]

/-- The alternatives of the severity regular expression
`/^(CAUTION|IMPORTANT|NOTE|TIP|WARNING)\]\s*$/`, in order. -/
def severityLabels : List String := ["CAUTION", "IMPORTANT", "NOTE", "TIP", "WARNING"]

/-- Whether one alternative of the severity regular expression matches:
the string is the label, then `]`, then only whitespace to the end. -/
def severityRegexMatch (lab s : String) : Bool :=
  jsStartsWith s (lab ++ "]") && (jsSliceFrom s (lab.length + 1)).data.all Char.isWhitespace

/-- The `rawAlertType.match(/^(CAUTION|IMPORTANT|NOTE|TIP|WARNING)\]\s*$/)`
test: the captured severity label, or `none` when the match fails. The
match is case-sensitive — the regular expression carries no `i` flag. -/
def matchSeverity (s : String) : Option String :=
  severityLabels.find? (fun lab => severityRegexMatch lab s)

/-- The blockquote→alert logic of `tokenToNode` (parse-raw-markdown.mjs,
`case 'blockquote'`), acting on the already-transformed `node.subnodes`. -/
def blockquoteToNode (subnodes : List MNode) : Except String MNode :=
  let node := MNode.blockquote subnodes
  match subnodes with
  | MNode.paragraph psubs :: restSubs =>
    let remaining := shiftRemaining (psubs.drop 1)
    match psubs with
    | MNode.str s :: _ =>
      if jsSlice s 0 2 = "[!" then
        match matchSeverity (rawAlertTypeOf s) with
        | none => .ok node
        | some lab =>
          let severity := jsToLower lab
          if severity = "caution" ∨ severity = "important" ∨ severity = "note" ∨
              severity = "tip" ∨ severity = "warning" then
            .ok (.alert severity
              (MNode.paragraph (alertLeadText s ++ remaining) :: restSubs))
          else
            .error ("tokenToNode(): Invalid alert type \"" ++ severity ++ "\" in \"" ++
              s ++ "\" - expected one of: caution, important, note, tip, warning")
      else .ok node
    | _ => .ok node
  | _ => .ok node

/-- The shell-language set `new Set(['bash', 'console', 'fish', 'shell',
'sh', 'zsh'])`. -/
def shellLangs : List String := ["bash", "console", "fish", "shell", "sh", "zsh"]

/-- The `.map` over the tokens of a parsed shell code block: description and
output tokens pass through, a command token's joined lines are re-highlighted
and its `lines` replaced by `subnodes`. -/
def mapShellTokens (env : HljsEnv) (language : String) :
    List ShellToken → Except String (List ShellItem)
  | [] => .ok []
  | t :: rest =>
    if t.kind = .command then
      match hljsHighlight env (jsJoinNewline t.lines) language with
      | .error e => .error e
      | .ok v =>
        match mapShellTokens env language rest with
        | .error e => .error e
        | .ok restItems => .ok (.command v :: restItems)
    else
      match mapShellTokens env language rest with
      | .error e => .error e
      | .ok restItems => .ok (.tok t :: restItems)

mutual

/-- Shallow embedding of `tokenToNode` (parse-raw-markdown.mjs). A thrown
`Error(msg)` is modelled as `.error msg`; the `null` returned for space
tokens is modelled as `.ok none`. -/
def tokenToNode (env : HljsEnv) : MToken → Except String (Option MNode)
  | .text t => .ok (some (.str t))
  | .br => .ok (some .br)
  | .hr => .ok (some .hr)
  | .code lang text =>
    let language := match lang with
      | none => "plaintext"
      | some l => if l = "" then "plaintext" else l
    if ¬ shellLangs.contains language then
      match hljsHighlight env text language with
      | .error e => .error e
      | .ok value => .ok (some (.code language (.value value)))
    else
      match parseShellCodeBlock text with
      | .error e => .error e
      | .ok toks =>
        match mapShellTokens env language toks with
        | .error e => .error e
        | .ok items => .ok (some (.code language (.shell items)))
  | .codespan t => .ok (some (.codespan [.str t]))
  | .heading depth t => .ok (some (.heading depth [.str t]))
  | .html block pre t =>
    if jsStartsWith t "<!--" ∧ jsEndsWith t "-->" then
      .ok (some (.comment [.str (jsTrim (jsSliceInner t))]))
    else
      .ok (some (.html block (if block then some pre else none) [.str t]))
  | .image href title tokens =>
    match tokensToNodes env tokens with
    | .error e => .error e
    | .ok subnodes => .ok (some (.image href (jsTruthyTitle title) subnodes))
  | .link href title tokens =>
    match tokensToNodes env tokens with
    | .error e => .error e
    | .ok subnodes => .ok (some (.link href (jsTruthyTitle title) subnodes))
  | .space => .ok none
  | .list ordered items =>
    match tokensToNodes env items with
    | .error e => .error e
    | .ok subnodes => .ok (some (.list ordered subnodes))
  | .blockquote tokens =>
    match tokensToNodes env tokens with
    | .error e => .error e
    | .ok subnodes =>
      match blockquoteToNode subnodes with
      | .error e => .error e
      | .ok node => .ok (some node)
  | .table align header rows =>
    match cellsToNodes env header with
    | .error e => .error e
    | .ok headerCells =>
      match rowsToNodes env rows with
      | .error e => .error e
      | .ok rowNodes =>
        .ok (some (.table align (.table_header headerCells :: rowNodes)))
  | .del tokens =>
    match tokensToNodes env tokens with
    | .error e => .error e
    | .ok subnodes => .ok (some (.del subnodes))
  | .em tokens =>
    match tokensToNodes env tokens with
    | .error e => .error e
    | .ok subnodes => .ok (some (.em subnodes))
  | .list_item tokens =>
    match tokensToNodes env tokens with
    | .error e => .error e
    | .ok subnodes => .ok (some (.list_item subnodes))
  | .paragraph tokens =>
    match tokensToNodes env tokens with
    | .error e => .error e
    | .ok subnodes => .ok (some (.paragraph subnodes))
  | .strong tokens =>
    match tokensToNodes env tokens with
    | .error e => .error e
    | .ok subnodes => .ok (some (.strong subnodes))
  | .other kind => .error ("Unsupported token type \"" ++ kind ++ "\"")

/-- The `tokens.map(tokenToNode).filter(Boolean)` pattern: transform each
child in order (the first raised error propagates), then drop `null` and
falsy (empty-string) results. -/
def tokensToNodes (env : HljsEnv) : List MToken → Except String (List MNode)
  | [] => .ok []
  | t :: rest =>
    match tokenToNode env t with
    | .error e => .error e
    | .ok n? =>
      match tokensToNodes env rest with
      | .error e => .error e
      | .ok restNs =>
        match n? with
        | none => .ok restNs
        | some n => .ok (if nodeTruthy n then n :: restNs else restNs)

/-- The `header.map(({ tokens }) => ({ kind: 'table_cell', ... }))`
pattern: each cell's tokens become one `table_cell` node. -/
def cellsToNodes (env : HljsEnv) : List (List MToken) → Except String (List MNode)
  | [] => .ok []
  | cell :: rest =>
    match tokensToNodes env cell with
    | .error e => .error e
    | .ok ns =>
      match cellsToNodes env rest with
      | .error e => .error e
      | .ok restNs => .ok (.table_cell ns :: restNs)

/-- The `rows.map((row) => ({ kind: 'table_row', ... }))` pattern: each row
becomes one `table_row` node of `table_cell` nodes. -/
def rowsToNodes (env : HljsEnv) : List (List (List MToken)) → Except String (List MNode)
  | [] => .ok []
  | row :: rest =>
    match cellsToNodes env row with
    | .error e => .error e
    | .ok cells =>
      match rowsToNodes env rest with
      | .error e => .error e
      | .ok restNs => .ok (.table_row cells :: restNs)

end

/-! ## Concrete environments used by counterexamples and witnesses -/

/-- A concrete highlighter environment with the plugin registered, as it is
after module load. -/
def sampleHljsEnv : HljsEnv :=
  { registered := true
    emit := fun _ _ => some []
    rawValue := fun _ _ => "" }

/-- A concrete highlighter environment in which the module-level
`hljs.addPlugin` registration has NOT happened, tokenizing `"x"` as a single
span and rendering it as an HTML string. -/
def cexHljsEnv : HljsEnv :=
  { registered := false
    emit := fun _ _ => some [HljsChild.str "x"]
    rawValue := fun _ _ => "<span>x</span>" }

/-! ## Claim C2: unknown `[!...]` severity prefixes -/

/-- Counterexample for C2 as stated: on a blockquote whose `[!FOO]` prefix
matches no known severity label, the transformer does not fail with the
InvalidAlertSeverity error — `if (!matches) return node;` returns the plain
blockquote node, and the throwing `default` branch is unreachable. -/
theorem c2_unknown_severity_counterexample :
    matchSeverity (rawAlertTypeOf "[!FOO]\nHello") = none ∧
    tokenToNode sampleHljsEnv (.blockquote [.paragraph [.text "[!FOO]\nHello"]]) =
      .ok (some (.blockquote [.paragraph [.str "[!FOO]\nHello"]])) :=
  ⟨rfl, rfl⟩

/-- C2 (amended): for every blockquote whose first transformed child is a
paragraph whose first sub-item is a string beginning with `[!`, if the
extracted prefix matches no known severity label the transformer returns the
blockquote unchanged as a plain node; no error is raised. -/
theorem c2_unknown_severity_plain_blockquote (psubs restSubs : List MNode) (s : String)
    (hs : jsSlice s 0 2 = "[!")
    (hm : matchSeverity (rawAlertTypeOf s) = none) :
    blockquoteToNode (MNode.paragraph (MNode.str s :: psubs) :: restSubs) =
      .ok (.blockquote (MNode.paragraph (MNode.str s :: psubs) :: restSubs)) := by
  unfold blockquoteToNode
  dsimp only
  rw [if_pos hs, hm]

/-- Witness for C2 (amended) at the concrete prefix `[!FOO]`. -/
theorem c2_unknown_severity_plain_blockquote_witness :
    blockquoteToNode [MNode.paragraph [MNode.str "[!FOO]\nHello"]] =
      .ok (.blockquote [MNode.paragraph [MNode.str "[!FOO]\nHello"]]) :=
  c2_unknown_severity_plain_blockquote [] [] "[!FOO]\nHello" rfl rfl

/-! ## Claim C6: severity matching is case-sensitive -/

/-- Counterexample for C6 as stated: a blockquote beginning with lowercase
`[!note]` is NOT rewrapped as an alert — the severity regular expression has
no `i` flag, so only the uppercase `[!NOTE]` form produces the alert. -/
theorem c6_lowercase_note_counterexample :
    tokenToNode sampleHljsEnv (.blockquote [.paragraph [.text "[!note]\nThis is a note"]]) =
      .ok (some (.blockquote [.paragraph [.str "[!note]\nThis is a note"]])) ∧
    tokenToNode sampleHljsEnv (.blockquote [.paragraph [.text "[!NOTE]\nThis is a note"]]) =
      .ok (some (.alert "note" [.paragraph [.str "This is a note"]])) :=
  ⟨rfl, rfl⟩

theorem matchSeverity_toLower (s lab : String) (h : matchSeverity s = some lab) :
    jsToLower lab = "caution" ∨ jsToLower lab = "important" ∨ jsToLower lab = "note" ∨
    jsToLower lab = "tip" ∨ jsToLower lab = "warning" := by
  have hmem : lab ∈ severityLabels := List.mem_of_find?_eq_some h
  simp only [severityLabels, List.mem_cons, List.not_mem_nil, or_false] at hmem
  rcases hmem with rfl | rfl | rfl | rfl | rfl
  · exact Or.inl rfl
  · exact Or.inr (Or.inl rfl)
  · exact Or.inr (Or.inr (Or.inl rfl))
  · exact Or.inr (Or.inr (Or.inr (Or.inl rfl)))
  · exact Or.inr (Or.inr (Or.inr (Or.inr rfl)))

/-- C6 (amended): the severity token is matched case-sensitively against the
uppercase labels; whenever the match succeeds with label `lab`, the
blockquote is rewrapped as an alert whose severity is `lab` lowercased, with
the alert-prefix text removed from the first paragraph. -/
theorem c6_severity_case_sensitive_alert (psubs restSubs : List MNode) (s lab : String)
    (hs : jsSlice s 0 2 = "[!")
    (hm : matchSeverity (rawAlertTypeOf s) = some lab) :
    blockquoteToNode (MNode.paragraph (MNode.str s :: psubs) :: restSubs) =
      .ok (.alert (jsToLower lab)
        (MNode.paragraph (alertLeadText s ++ shiftRemaining psubs) :: restSubs)) := by
  unfold blockquoteToNode
  dsimp only
  rw [if_pos hs, hm]
  exact if_pos (matchSeverity_toLower _ lab hm)

/-- Witness for C6 (amended) at the concrete uppercase prefix `[!TIP]`. -/
theorem c6_severity_case_sensitive_alert_witness :
    blockquoteToNode [MNode.paragraph [MNode.str "[!TIP]\nBe nice"]] =
      .ok (.alert "tip" [MNode.paragraph [MNode.str "Be nice"]]) :=
  c6_severity_case_sensitive_alert [] [] "[!TIP]\nBe nice" "TIP" rfl rfl

/-! ## Claim C7: html tokens and the HTML-comment test -/

/-- The claim's hypothesis, following the spec's words: the TRIMMED text of
the html token matches `<!--...-->`. The source instead applies the
startsWith/endsWith test to the raw, untrimmed text. -/
def specTrimmedHtmlComment (t : String) : Bool :=
  jsStartsWith (jsTrim t) "<!--" && jsEndsWith (jsTrim t) "-->"

/-- Counterexample for C7 as stated: the html token text
`"<!-- c -->\n"` IS an HTML comment after trimming, yet the transformer
emits an `html` node, not a `comment` node, because the source tests the raw
text, whose trailing newline defeats `endsWith('-->')`. -/
theorem c7_html_comment_counterexample :
    specTrimmedHtmlComment "<!-- c -->\n" = true ∧
    tokenToNode sampleHljsEnv (.html true false "<!-- c -->\n") =
      .ok (some (.html true (some false) [.str "<!-- c -->\n"])) :=
  ⟨rfl, rfl⟩

/-- C7 (amended): for every html token, if the raw text starts with `<!--`
and ends with `-->` the transformer emits a `comment` node whose single
subnode is the inner text trimmed; otherwise it emits an `html` node
carrying the `block` flag, with the `pre` flag present exactly when `block`
is true. -/
theorem c7_html_node_shape (env : HljsEnv) (block pre : Bool) (t : String) :
    ((jsStartsWith t "<!--" ∧ jsEndsWith t "-->") →
      tokenToNode env (.html block pre t) =
        .ok (some (.comment [.str (jsTrim (jsSliceInner t))]))) ∧
    (¬ (jsStartsWith t "<!--" ∧ jsEndsWith t "-->") →
      tokenToNode env (.html block pre t) =
        .ok (some (.html block (if block then some pre else none) [.str t]))) := by
  constructor <;> intro h
  · simp only [tokenToNode]
    rw [if_pos h]
  · simp only [tokenToNode]
    rw [if_neg h]

/-- Witness for C7 (amended): a concrete comment token and a concrete block
html token. -/
theorem c7_html_node_shape_witness :
    tokenToNode sampleHljsEnv (.html true false "<!-- c -->") =
      .ok (some (.comment [.str "c"])) ∧
    tokenToNode sampleHljsEnv (.html true true "<pre>Preformatted</pre>") =
      .ok (some (.html true (some true) [.str "<pre>Preformatted</pre>"])) :=
  ⟨(c7_html_node_shape sampleHljsEnv true false "<!-- c -->").1 ⟨rfl, rfl⟩,
   (c7_html_node_shape sampleHljsEnv true true "<pre>Preformatted</pre>").2
     (fun hc => by exact absurd hc.2 (by decide))⟩

/-! ## Claim C8: determinism and the global highlighting hook -/

/-- Two consecutive invocations of the transformer against the same shared
highlighter state; the first result is discarded. The source performs no
assignment to any shared binding inside `tokenToNode`/`parseRawMarkdown`
(the only mutation of shared state is `hljs.addPlugin` at module load,
modelled by `moduleInit`), so the state threaded to the second call is the
unchanged `env`. -/
def runTwice (env : HljsEnv) (t1 t2 : MToken) : Except String (Option MNode) :=
  let _ := tokenToNode env t1
  tokenToNode env t2

/-- C8 counterexample: the transformer's output on a code token differs
according to whether the module-load `hljs.addPlugin(afterHighlightHandler)`
registration has happened on the shared highlight.js instance — without it,
a code node's `subnodes` is the raw HTML string instead of the span node
array — so the core DOES rely on the globally registered highlighting
callback, contradicting the claim. -/
theorem c8_global_hook_counterexample :
    tokenToNode cexHljsEnv (.code (some "js") "x") ≠
      tokenToNode (moduleInit cexHljsEnv) (.code (some "js") "x") := by
  show Except.ok (some (MNode.code "js" (.value (.html "<span>x</span>")))) ≠
    Except.ok (some (MNode.code "js" (.value (.nodes [.str "x"]))))
  simp

/-- C8 (amended): the transformer is deterministic and free of
cross-invocation coupling — on a fixed highlighter state, an earlier
invocation on any other input does not change a later invocation's result,
which equals a single invocation's result — but its output does depend on
the process-wide `after:highlight` callback registered at module load. -/
theorem c8_deterministic_but_hook_dependent :
    (∀ (env : HljsEnv) (t1 t1' t2 : MToken),
      runTwice env t1 t2 = tokenToNode env t2 ∧
      runTwice env t1 t2 = runTwice env t1' t2) ∧
    (∃ (env : HljsEnv) (tok : MToken),
      tokenToNode env tok ≠ tokenToNode (moduleInit env) tok) := by
  refine ⟨fun env t1 t1' t2 => ⟨rfl, rfl⟩, ⟨cexHljsEnv, .code (some "js") "x", ?_⟩⟩
  show Except.ok (some (MNode.code "js" (.value (.html "<span>x</span>")))) ≠
    Except.ok (some (MNode.code "js" (.value (.nodes [.str "x"]))))
  simp
